import Mathlib

/-
  Verification of the xjog durable statechart engine specification against a
  shallow embedding of its TypeScript sources.

  Components modelled here:
  * the core persistence tables (`instances`, `charts`, `ongoingActivities`)
    and the adoption operations of `PersistenceAdapter` /
    `PostgresPersistenceAdapter`;
  * the journal persistence (`record`, `updateFullState`) together with a
    JSON value type and an RFC 6902 patch generator / applier modelling the
    external `rfc6902` library by its documented contract;
  * the chart executor's `send` mutation sequence;
  * the deferred-event manager's in-memory scheduling list with JavaScript
    `Array.prototype.splice` / `findIndex` semantics;
  * the startup manager's adoption loop and grace-period timer;
  * the `ChartIdentifier` URI serialization, including a model of the WHATWG
    `URL` class restricted to the `xjog+chart:` scheme.
-/

namespace XJogSpec

/-- `ChartReference` value: the `(machineId, chartId)` identity of a chart. -/
structure ChartReference where
  machineId : String
  chartId : String
deriving DecidableEq, Repr

/-- One row of the `charts` table, restricted to the columns that the
adoption operations read or write. -/
structure ChartRow where
  ownerId : String
  ref : ChartReference
  paused : Bool
deriving DecidableEq, Repr

/-- One row of the `ongoingActivities` table. -/
structure ActivityRow where
  ref : ChartReference
  activityId : String
deriving DecidableEq, Repr

/-- One row of the `instances` table. -/
structure InstanceRow where
  instanceId : String
  dying : Bool
deriving DecidableEq, Repr

/-- The core persistence database: the tables touched by overthrow,
adoption and shutdown. -/
structure CoreDb where
  instances : List InstanceRow
  charts : List ChartRow
  ongoingActivities : List ActivityRow
deriving DecidableEq, Repr

/-- `SELECT "machineId", "chartId" FROM "charts" WHERE "paused"=TRUE`
(`PostgresPersistenceAdapter.getPausedChartIds`). -/
def getPausedChartIds (db : CoreDb) : List ChartReference :=
  (db.charts.filter (·.paused)).map (·.ref)

/-- `SELECT COUNT(*) FROM "charts" WHERE "paused"=TRUE`
(`PostgresPersistenceAdapter.countPausedCharts`). -/
def countPausedCharts (db : CoreDb) : Nat :=
  (db.charts.filter (·.paused)).length

/-- `DELETE FROM "ongoingActivities" WHERE NOT EXISTS (SELECT * FROM "charts"
WHERE "machineId" = "ongoingActivities"."machineId" AND "chartId" =
"ongoingActivities"."chartId" AND "paused" = TRUE)`
(`PostgresPersistenceAdapter.deleteOngoingActivitiesForPausedCharts`).
A row survives the delete exactly when the `NOT EXISTS` condition is false,
i.e. when a paused chart with the same reference exists. -/
def deleteOngoingActivitiesForPausedCharts (db : CoreDb) : CoreDb :=
  { db with
    ongoingActivities :=
      db.ongoingActivities.filter (fun a =>
        db.charts.any (fun ch => ch.ref = a.ref && ch.paused)) }

/-- `UPDATE "charts" SET "paused" = FALSE, "ownerId" = :id WHERE "paused" = TRUE`
(`PostgresPersistenceAdapter.changeOwnerAndResumePausedCharts`). -/
def changeOwnerAndResumePausedCharts (id : String) (db : CoreDb) : CoreDb :=
  { db with
    charts := db.charts.map (fun ch =>
      if ch.paused then { ch with paused := false, ownerId := id } else ch) }

/-- `PersistenceAdapter.forciblyAdoptCharts`: within one transaction, read the
paused chart references, run the ongoing-activity delete, then resume all
paused charts under the new owner.  Returns the adopted references and the
database after the transaction commits. -/
def forciblyAdoptCharts (instanceId : String) (db : CoreDb) :
    List ChartReference × CoreDb :=
  let adoptedChartIds := getPausedChartIds db
  let db1 := deleteOngoingActivitiesForPausedCharts db
  let db2 := changeOwnerAndResumePausedCharts instanceId db1
  (adoptedChartIds, db2)

/-- `SELECT ... FROM "charts" WHERE "paused" = TRUE AND NOT EXISTS (SELECT *
FROM "ongoingActivities" ...)` (`getPausedChartWithNoOngoingActivitiesIds`). -/
def getPausedChartWithNoOngoingActivitiesIds (db : CoreDb) : List ChartReference :=
  (db.charts.filter (fun ch =>
    ch.paused && !(db.ongoingActivities.any (fun a => a.ref = ch.ref)))).map (·.ref)

/-- `changeOwnerAndResumeCharts`: per-reference
`UPDATE "charts" SET "paused" = FALSE, "ownerId" = :instanceId WHERE ...`. -/
def changeOwnerAndResumeCharts (instanceId : String) (refs : List ChartReference)
    (db : CoreDb) : CoreDb :=
  { db with
    charts := refs.foldl (fun cs r =>
      cs.map (fun ch =>
        if ch.ref = r then { ch with paused := false, ownerId := instanceId } else ch))
      db.charts }

/-- `PersistenceAdapter.gentlyAdoptCharts`: select the paused charts with no
ongoing activities, resume them under the new owner, return their refs. -/
def gentlyAdoptCharts (instanceId : String) (db : CoreDb) :
    List ChartReference × CoreDb :=
  let adoptedChartIds := getPausedChartWithNoOngoingActivitiesIds db
  (adoptedChartIds, changeOwnerAndResumeCharts instanceId adoptedChartIds db)

/-- `PostgresPersistenceAdapter.deleteInstance`: the method body is commented
out in the source (`// TODO re-enable or make a cleanup with some lookbehind
period`), so no SQL is issued and the `instances` table is left untouched. -/
def deleteInstance (_id : String) (instances : List InstanceRow) :
    List InstanceRow :=
  instances

/-- `PersistenceAdapter.removeInstance` delegates to `deleteInstance`. -/
def removeInstance (id : String) (instances : List InstanceRow) :
    List InstanceRow :=
  deleteInstance id instances

/-- A sample database used to exercise the adoption operations: a paused
chart and a running chart, each with one registered ongoing activity. -/
def pausedRef : ChartReference := { machineId := "m", chartId := "paused" }

def runningRef : ChartReference := { machineId := "m", chartId := "running" }

def sampleAdoptionDb : CoreDb :=
  { instances := [{ instanceId := "old", dying := true }]
    charts :=
      [ { ownerId := "old", ref := pausedRef, paused := true }
      , { ownerId := "old", ref := runningRef, paused := false } ]
    ongoingActivities :=
      [ { ref := pausedRef, activityId := "actPaused" }
      , { ref := runningRef, activityId := "actRunning" } ] }

/-- Claim C1: the claim states that `forciblyAdoptCharts(selfId)` deletes
exactly those `ongoingActivities` rows whose chart row has `paused=true`.
Evaluating the embedded code on a database with one paused and one running
chart, each carrying one activity row, shows the opposite happens: the
`NOT EXISTS` filter in `deleteOngoingActivitiesForPausedCharts` keeps the
paused chart's activity row and deletes the running chart's row, while the
paused chart is still resumed under the new owner and returned. -/
theorem forciblyAdoptCharts_keeps_paused_activities :
    (forciblyAdoptCharts "self" sampleAdoptionDb).2.ongoingActivities =
      [{ ref := pausedRef, activityId := "actPaused" }] ∧
    (forciblyAdoptCharts "self" sampleAdoptionDb).1 = [pausedRef] ∧
    (sampleAdoptionDb.charts.filter (·.paused)).map (·.ref) = [pausedRef] ∧
    ¬ ((forciblyAdoptCharts "self" sampleAdoptionDb).2.ongoingActivities =
        [{ ref := runningRef, activityId := "actRunning" }]) := by
  refine ⟨by decide, by decide, by decide, by decide⟩

/-- In-memory state of one `onDeathNote(instanceId, callback)` subscription in
`PostgresPersistenceAdapter`: the `cancelled` flag, whether the polling
interval timer is still armed, and how many times `callback` has run. -/
structure DeathNoteState where
  cancelled : Bool
  timerActive : Bool
  callbackCount : Nat
deriving DecidableEq, Repr

/-- State right after `onDeathNote` installs the 500 ms interval. -/
def deathNoteInit : DeathNoteState :=
  { cancelled := false, timerActive := true, callbackCount := 0 }

/-- One tick of the polling interval in `onDeathNote`.  `dyingRow` is the
result of the `SELECT COUNT(*) ... WHERE "instanceId" = :instanceId AND
"dying" = TRUE` query (true when the row is flagged dying).  The body is a
direct transcription: an already-cancelled subscription clears its timer;
otherwise, when the dying row is observed the tick sets `cancelled = true`,
clears the timer, and only then evaluates `if (!cancelled) callback()`. -/
def deathNotePoll (s : DeathNoteState) (dyingRow : Bool) : DeathNoteState :=
  if s.cancelled then
    { s with timerActive := false }
  else if dyingRow then
    let s1 := { s with cancelled := true, timerActive := false }
    if !s1.cancelled then { s1 with callbackCount := s1.callbackCount + 1 }
    else s1
  else s

/-- The cancel function returned by `onDeathNote`. -/
def deathNoteCancel (s : DeathNoteState) : DeathNoteState :=
  { s with cancelled := true, timerActive := false }

/-- Run a subscription from its initial state through a sequence of polls,
each poll observing whether the instance row is flagged dying. -/
def deathNoteRun (polls : List Bool) : DeathNoteState :=
  polls.foldl deathNotePoll deathNoteInit

theorem deathNotePoll_callbackCount (s : DeathNoteState) (d : Bool) :
    (deathNotePoll s d).callbackCount = s.callbackCount := by
  unfold deathNotePoll
  by_cases hc : s.cancelled <;> by_cases hd : d <;> simp [hc, hd]

theorem deathNoteFoldl_callbackCount (polls : List Bool) (s : DeathNoteState) :
    (polls.foldl deathNotePoll s).callbackCount = s.callbackCount := by
  induction polls generalizing s with
  | nil => rfl
  | cons p rest ih => simpa [deathNotePoll_callbackCount] using ih (deathNotePoll s p)

/-- Claim C3: the claim states that `onDeathNote(selfId, cb)` invokes `cb`
exactly once when a poll observes the dying flag.  In the source the dying
branch first sets `cancelled = true` and only afterwards guards the call with
`if (!cancelled)`, so the callback is unreachable: over every sequence of
polls — in particular one that observes `dying = true` — the callback runs
zero times, never once. -/
theorem onDeathNote_callback_never_invoked :
    (∀ polls : List Bool, (deathNoteRun polls).callbackCount = 0) ∧
    (deathNoteRun [false, true]).callbackCount = 0 ∧
    (deathNoteRun [false, true]).cancelled = true := by
  refine ⟨fun polls => ?_, by decide, by decide⟩
  simpa [deathNoteRun] using deathNoteFoldl_callbackCount polls deathNoteInit

/-- Claim C4: the claim states that after `shutdown()` the instance's row has
been removed from the `instances` table, leaving zero rows when the sole
engine shuts down.  `XJog.shutdown` does call
`persistence.removeInstance(this.id)`, but the Postgres `deleteInstance` it
delegates to has its only statement commented out, so the table is returned
untouched: starting from a table holding exactly the running instance's row,
the row count after the removal step is still one, not zero. -/
theorem shutdown_leaves_instance_row :
    (∀ (id : String) (table : List InstanceRow),
      removeInstance id table = table) ∧
    removeInstance "self" [{ instanceId := "self", dying := false }] =
      [{ instanceId := "self", dying := false }] ∧
    (removeInstance "self" [{ instanceId := "self", dying := false }]).length = 1 := by
  exact ⟨fun _ _ => rfl, rfl, rfl⟩

/-- The fields of a `PersistedDeferredEvent` that the in-memory scheduling
list of `XJogDeferredEventManager` orders and searches on. -/
structure DeferredEventM where
  id : Nat
  due : Nat
  eventId : Nat
deriving DecidableEq, Repr

/-- JavaScript `Array.prototype.findIndex`: the index of the first match, or
`-1` when no element matches. -/
def jsFindIndex (l : List DeferredEventM) (p : DeferredEventM → Bool) : Int :=
  match l.findIdx? p with
  | some i => (i : Int)
  | none => -1

/-- The start-index normalization of JavaScript `Array.prototype.splice`:
a negative index counts back from the end, clamped at `0`; a non-negative
index is clamped at the length. -/
def jsSpliceStart (len : Nat) (idx : Int) : Nat :=
  if idx < 0 then ((len : Int) + idx).toNat
  else min idx.toNat len

/-- `splice(idx, 0, e)`: insert `e` at the normalized start index. -/
def jsSpliceInsert (l : List DeferredEventM) (idx : Int) (e : DeferredEventM) :
    List DeferredEventM :=
  let n := jsSpliceStart l.length idx
  l.take n ++ e :: l.drop n

/-- The list-insertion step of `XJogDeferredEventManager.schedule`: find the
first already-scheduled event that is due later (or due at the same time but
inserted into the database later), then `splice` the new event in at that
index.  `findIndex` yields `-1` when every existing event sorts before the
new one. -/
def scheduleInsert (l : List DeferredEventM) (e : DeferredEventM) :
    List DeferredEventM :=
  let indexOfLaterDeferredEvent := jsFindIndex l (fun existing =>
    existing.due > e.due || (existing.due == e.due && existing.id > e.id))
  jsSpliceInsert l indexOfLaterDeferredEvent e

/-- The list-removal step of `XJogDeferredEventManager.unschedule`: remove
the first event whose `eventId` matches, if any. -/
def unscheduleRemove (l : List DeferredEventM) (eventId : Nat) :
    List DeferredEventM :=
  match l.findIdx? (fun c => c.eventId == eventId) with
  | some i => l.take i ++ l.drop (i + 1)
  | none => l

/-- Sortedness by `(due ASC, id ASC)` as a boolean over adjacent pairs. -/
def sortedByDueId : List DeferredEventM → Bool
  | [] => true
  | [_] => true
  | a :: b :: rest =>
      (a.due < b.due || (a.due == b.due && a.id ≤ b.id)) &&
      sortedByDueId (b :: rest)

/-- Claim C9: the claim states that the in-memory list stays sorted by
`(due ASC, id ASC)` after every schedule and unschedule.  Scheduling an
event that belongs at the end makes `findIndex` return `-1`, and JavaScript
`splice(-1, 0, e)` inserts *before the last element*: after scheduling
`(due 10, id 1)` and then `(due 20, id 2)` into an empty list the list is
`[(due 20, id 2), (due 10, id 1)]`, which is not sorted. -/
theorem scheduleInsert_breaks_due_order :
    scheduleInsert (scheduleInsert []
        { id := 1, due := 10, eventId := 1 })
        { id := 2, due := 20, eventId := 2 } =
      [ { id := 2, due := 20, eventId := 2 }
      , { id := 1, due := 10, eventId := 1 } ] ∧
    sortedByDueId
      (scheduleInsert (scheduleInsert []
          { id := 1, due := 10, eventId := 1 })
          { id := 2, due := 20, eventId := 2 }) = false := by
  exact ⟨by decide, by decide⟩

/-- A JSON value: the opaque state / context blobs that the journal diffs.
JavaScript numbers are modelled as integers; nothing in the journal logic
depends on fractional values. -/
inductive Json where
  | null
  | bool (b : Bool)
  | num (n : Int)
  | str (s : String)
  | arr (elems : List Json)
  | obj (fields : List (String × Json))

mutual

def decEqJson : (a b : Json) → Decidable (a = b)
  | .null, .null => isTrue rfl
  | .bool a, .bool b =>
    match decEq a b with
    | isTrue h => isTrue (by rw [h])
    | isFalse h => isFalse (fun hh => h (by injection hh))
  | .num a, .num b =>
    match decEq a b with
    | isTrue h => isTrue (by rw [h])
    | isFalse h => isFalse (fun hh => h (by injection hh))
  | .str a, .str b =>
    match decEq a b with
    | isTrue h => isTrue (by rw [h])
    | isFalse h => isFalse (fun hh => h (by injection hh))
  | .arr xs, .arr ys =>
    match decEqJsonList xs ys with
    | isTrue h => isTrue (by rw [h])
    | isFalse h => isFalse (fun hh => h (by injection hh))
  | .obj xs, .obj ys =>
    match decEqJsonFields xs ys with
    | isTrue h => isTrue (by rw [h])
    | isFalse h => isFalse (fun hh => h (by injection hh))
  | .null, .bool _ => isFalse (by intro h; cases h)
  | .null, .num _ => isFalse (by intro h; cases h)
  | .null, .str _ => isFalse (by intro h; cases h)
  | .null, .arr _ => isFalse (by intro h; cases h)
  | .null, .obj _ => isFalse (by intro h; cases h)
  | .bool _, .null => isFalse (by intro h; cases h)
  | .bool _, .num _ => isFalse (by intro h; cases h)
  | .bool _, .str _ => isFalse (by intro h; cases h)
  | .bool _, .arr _ => isFalse (by intro h; cases h)
  | .bool _, .obj _ => isFalse (by intro h; cases h)
  | .num _, .null => isFalse (by intro h; cases h)
  | .num _, .bool _ => isFalse (by intro h; cases h)
  | .num _, .str _ => isFalse (by intro h; cases h)
  | .num _, .arr _ => isFalse (by intro h; cases h)
  | .num _, .obj _ => isFalse (by intro h; cases h)
  | .str _, .null => isFalse (by intro h; cases h)
  | .str _, .bool _ => isFalse (by intro h; cases h)
  | .str _, .num _ => isFalse (by intro h; cases h)
  | .str _, .arr _ => isFalse (by intro h; cases h)
  | .str _, .obj _ => isFalse (by intro h; cases h)
  | .arr _, .null => isFalse (by intro h; cases h)
  | .arr _, .bool _ => isFalse (by intro h; cases h)
  | .arr _, .num _ => isFalse (by intro h; cases h)
  | .arr _, .str _ => isFalse (by intro h; cases h)
  | .arr _, .obj _ => isFalse (by intro h; cases h)
  | .obj _, .null => isFalse (by intro h; cases h)
  | .obj _, .bool _ => isFalse (by intro h; cases h)
  | .obj _, .num _ => isFalse (by intro h; cases h)
  | .obj _, .str _ => isFalse (by intro h; cases h)
  | .obj _, .arr _ => isFalse (by intro h; cases h)

def decEqJsonList : (xs ys : List Json) → Decidable (xs = ys)
  | [], [] => isTrue rfl
  | x :: xs, y :: ys =>
    match decEqJson x y, decEqJsonList xs ys with
    | isTrue h1, isTrue h2 => isTrue (by rw [h1, h2])
    | isFalse h1, _ => isFalse (fun hh => h1 (by injection hh))
    | _, isFalse h2 => isFalse (fun hh => h2 (by injection hh))
  | [], _ :: _ => isFalse (by intro h; cases h)
  | _ :: _, [] => isFalse (by intro h; cases h)

def decEqJsonFields : (xs ys : List (String × Json)) → Decidable (xs = ys)
  | [], [] => isTrue rfl
  | (k1, v1) :: xs, (k2, v2) :: ys =>
    match decEq k1 k2, decEqJson v1 v2, decEqJsonFields xs ys with
    | isTrue h0, isTrue h1, isTrue h2 => isTrue (by rw [h0, h1, h2])
    | isFalse h0, _, _ => isFalse (fun hh => h0 (by cases hh; rfl))
    | _, isFalse h1, _ => isFalse (fun hh => h1 (by cases hh; rfl))
    | _, _, isFalse h2 => isFalse (fun hh => h2 (by injection hh))
  | [], _ :: _ => isFalse (by intro h; cases h)
  | _ :: _, [] => isFalse (by intro h; cases h)

end

instance : DecidableEq Json := decEqJson

/-- An RFC 6902 patch operation restricted to the operation kinds that the
journal's diffing produces (`add`, `remove`, `replace`).  Paths are kept as
token lists; the empty list is the root pointer `""`. -/
inductive PatchOp where
  | add (path : List String) (value : Json)
  | remove (path : List String)
  | replace (path : List String) (value : Json)
deriving DecidableEq

/-- Does an object field list carry key `k`? -/
def hasField (fields : List (String × Json)) (k : String) : Bool :=
  fields.any (fun kv => kv.fst == k)

/-- RFC 6902 `add` on an object member: replace the member when the key is
present, append it otherwise. -/
def setOrAppendField (fields : List (String × Json)) (k : String) (v : Json) :
    List (String × Json) :=
  if hasField fields k then
    fields.map (fun kv => if kv.fst == k then (k, v) else kv)
  else fields ++ [(k, v)]

/-- RFC 6902 `remove` on an object member (JSON objects never carry
duplicate keys, so removing every pair with the key is the same as removing
the one member). -/
def eraseField (fields : List (String × Json)) (k : String) :
    List (String × Json) :=
  fields.filter (fun kv => kv.fst != k)

/-- Apply a single patch operation to a document.  Operations target either
the root or a top-level object member, matching the shapes produced by
`createPatch` below; a `remove` or `replace` of an absent member is an
error, as RFC 6902 prescribes. -/
def applyOp (doc : Json) (op : PatchOp) : Except Unit Json :=
  match op with
  | .replace [] v => .ok v
  | .add [] v => .ok v
  | .remove [] => .error ()
  | .replace [k] v =>
    match doc with
    | .obj f => if hasField f k then .ok (.obj (setOrAppendField f k v)) else .error ()
    | _ => .error ()
  | .add [k] v =>
    match doc with
    | .obj f => .ok (.obj (setOrAppendField f k v))
    | _ => .error ()
  | .remove [k] =>
    match doc with
    | .obj f => if hasField f k then .ok (.obj (eraseField f k)) else .error ()
    | _ => .error ()
  | _ => .error ()

/-- Apply a patch: run the operations in order, stopping at the first
failure.  This is the pure content of `rfc6902.applyPatch` as the
integration tests use it. -/
def applyPatch (doc : Json) (ops : List PatchOp) : Except Unit Json :=
  match ops with
  | [] => .ok doc
  | op :: rest =>
    match applyOp doc op with
    | .ok d => applyPatch d rest
    | .error e => .error e

/-- The object-to-object diff: remove every member of the source, then add
every member of the target. -/
def objDiffOps (fa fb : List (String × Json)) : List PatchOp :=
  fa.map (fun kv => PatchOp.remove [kv.fst]) ++
  fb.map (fun kv => PatchOp.add [kv.fst] kv.snd)

/-- Modelled from the spec: `createPatch` of the external `rfc6902` library
(a collaborator the specification scopes out and describes only through its
contract: the generated patch transforms the first argument into the second,
and equal inputs yield the empty patch).  Equal documents diff to `[]`;
differing objects diff member-wise; any other pair diffs to a root
`replace`.  The real library produces a more economical patch, but every
patch it generates and every patch generated here transform the first
document into the second, which is the property the journal relies on. -/
def createPatch (a b : Json) : List PatchOp :=
  if a = b then []
  else
    match a, b with
    | .obj fa, .obj fb => objDiffOps fa fb
    | _, _ => [.replace [] b]

/-- Top-level object keys are duplicate-free (always true of JSON values
produced by JavaScript objects). -/
def topKeysNodup : Json → Bool
  | .obj f => decide (f.map Prod.fst).Nodup
  | _ => true

theorem applyPatch_append (doc : Json) (l1 l2 : List PatchOp) :
    applyPatch doc (l1 ++ l2) =
      match applyPatch doc l1 with
      | .ok d => applyPatch d l2
      | .error e => .error e := by
  induction l1 generalizing doc with
  | nil => simp [applyPatch]
  | cons op rest ih =>
    simp only [List.cons_append, applyPatch]
    cases applyOp doc op with
    | ok d => exact ih d
    | error e => rfl

theorem applyPatch_removes (fa : List (String × Json))
    (h : (fa.map Prod.fst).Nodup) :
    applyPatch (.obj fa) (fa.map (fun kv => PatchOp.remove [kv.fst])) =
      .ok (.obj []) := by
  induction fa with
  | nil => rfl
  | cons kv rest ih =>
    obtain ⟨k, v⟩ := kv
    simp only [List.map_cons, List.nodup_cons, List.mem_map] at h
    have hk : ∀ p ∈ rest, p.fst ≠ k := by
      intro p hp he
      exact h.1 ⟨p, hp, he⟩
    have hfilter : eraseField ((k, v) :: rest) k = rest := by
      have hkk : ((k, v).fst != k) = false := by simp
      simp only [eraseField, List.filter_cons, hkk, Bool.false_eq_true, if_false]
      exact List.filter_eq_self.mpr (fun p hp => by
        simpa [bne_iff_ne] using hk p hp)
    simp only [List.map_cons, applyPatch, applyOp]
    rw [if_pos (by simp [hasField])]
    rw [hfilter]
    exact ih h.2

theorem applyPatch_adds (fb : List (String × Json)) (acc : List (String × Json))
    (h : (fb.map Prod.fst).Nodup)
    (hdisj : ∀ p ∈ fb, hasField acc p.fst = false) :
    applyPatch (.obj acc) (fb.map (fun kv => PatchOp.add [kv.fst] kv.snd)) =
      .ok (.obj (acc ++ fb)) := by
  induction fb generalizing acc with
  | nil => simp [applyPatch]
  | cons kv rest ih =>
    obtain ⟨k, v⟩ := kv
    simp only [List.map_cons, List.nodup_cons, List.mem_map] at h
    simp only [List.map_cons, applyPatch, applyOp]
    have hnot : hasField acc k = false := hdisj (k, v) (by simp)
    rw [setOrAppendField, if_neg (by simp [hnot])]
    rw [ih (acc ++ [(k, v)]) h.2 ?_]
    · simp
    · intro p hp
      have h1 : hasField acc p.fst = false := hdisj p (by simp [hp])
      have h2 : p.fst ≠ k := fun he => h.1 ⟨p, hp, he⟩
      have h3 : (k == p.fst) = false := by
        by_contra hc
        rw [Bool.not_eq_false] at hc
        exact h2 (eq_of_beq hc).symm
      simp only [hasField] at h1
      simp [hasField, List.any_append, h1, h3]

/-- The RFC 6902 contract: the generated patch carries the first document to
the second (for well-formed, duplicate-free object keys). -/
theorem applyPatch_createPatch (a b : Json)
    (ha : topKeysNodup a = true) (hb : topKeysNodup b = true) :
    applyPatch a (createPatch a b) = .ok b := by
  by_cases hab : a = b
  · subst hab
    simp [createPatch, applyPatch]
  · unfold createPatch
    rw [if_neg hab]
    cases a with
    | obj fa =>
      cases b with
      | obj fb =>
        simp only [topKeysNodup, decide_eq_true_eq] at ha hb
        simp only [objDiffOps]
        rw [applyPatch_append, applyPatch_removes fa ha]
        show applyPatch (Json.obj [])
          (fb.map fun kv => PatchOp.add [kv.fst] kv.snd) = Except.ok (Json.obj fb)
        rw [applyPatch_adds fb [] hb (fun p _ => rfl)]
        simp
      | null => simp [applyPatch, applyOp]
      | bool _ => simp [applyPatch, applyOp]
      | num _ => simp [applyPatch, applyOp]
      | str _ => simp [applyPatch, applyOp]
      | arr _ => simp [applyPatch, applyOp]
    | null => cases b <;> simp [applyPatch, applyOp]
    | bool _ => cases b <;> simp [applyPatch, applyOp]
    | num _ => cases b <;> simp [applyPatch, applyOp]
    | str _ => cases b <;> simp [applyPatch, applyOp]
    | arr _ => cases b <;> simp [applyPatch, applyOp]

/-- `nullSafeApplyJsonDiff` (packages/util), the repository's own applier
used by the journal reader for reverse traversal: a lone root `replace`
returns its value directly (`?? null`); any other patch rejects a scalar or
null input (`Complex patch but input is not an object`) — the empty patch on
a scalar included — and deep-copies then patches an object or array input. -/
def nullSafeApplyJsonDiff (input : Json) (patch : List PatchOp) :
    Except Unit Json :=
  match patch with
  | [.replace [] v] => .ok v
  | _ =>
    match input with
    | .str _ => .error ()
    | .num _ => .error ()
    | .null => .error ()
    | _ => applyPatch input patch

theorem nullSafeApplyJsonDiff_scalar_empty (s : String) :
    nullSafeApplyJsonDiff (.str s) [] = .error () :=
  rfl

/-- One row of the `fullJournalStates` table
(`PostgresJournalPersistenceAdapter`). -/
structure FullStateRow where
  id : Nat
  timestamp : Nat
  ownerId : String
  ref : ChartReference
  parentRef : Option ChartReference
  event : Option Json
  state : Option Json
  context : Option Json
deriving DecidableEq

/-- Row lookup by the `(machineId, chartId)` primary key. -/
def findFullState (table : List FullStateRow) (ref : ChartReference) :
    Option FullStateRow :=
  table.find? (fun r => r.ref == ref)

/-- `PostgresJournalPersistenceAdapter.updateFullState`: `INSERT ... ON
CONFLICT ("machineId", "chartId") DO UPDATE SET "id" = :id, "timestamp" =
..., "event" = :event, "state" = :state, "context" = :context WHERE
"fullJournalStates"."id" < :id`.  A fresh key inserts the whole row; a
conflicting key updates only under the strict `existing.id < new.id` guard;
a guarded-out write updates zero rows, upon which the adapter throws
(`Failed to write journal full entry`) and the table is left as it was. -/
def bumpRow (entry : FullStateRow) (r : FullStateRow) : FullStateRow :=
  if r.ref == entry.ref then
    { r with
      id := entry.id, timestamp := entry.timestamp,
      event := entry.event, state := entry.state,
      context := entry.context }
  else r

def updateFullState (table : List FullStateRow) (entry : FullStateRow) :
    Except Unit (List FullStateRow) :=
  match findFullState table entry.ref with
  | none => .ok (table ++ [entry])
  | some existing =>
    if existing.id < entry.id then .ok (table.map (bumpRow entry))
    else .error ()

/-- The table as it stands after the statement: unchanged whenever the
update was guarded out (the transaction wrote nothing). -/
def updateFullStateTable (table : List FullStateRow) (entry : FullStateRow) :
    List FullStateRow :=
  match updateFullState table entry with
  | .ok t => t
  | .error _ => table

/-- The snapshot id currently stored for a chart, if any. -/
def storedFullStateId (table : List FullStateRow) (ref : ChartReference) :
    Option Nat :=
  (findFullState table ref).map (·.id)

theorem updateFullState_insert (table : List FullStateRow)
    (entry : FullStateRow) (h : findFullState table entry.ref = none) :
    updateFullState table entry = .ok (table ++ [entry]) := by
  unfold updateFullState
  rw [h]

theorem updateFullState_bump (table : List FullStateRow)
    (entry existing : FullStateRow)
    (h : findFullState table entry.ref = some existing)
    (hlt : existing.id < entry.id) :
    updateFullState table entry = .ok (table.map (bumpRow entry)) := by
  unfold updateFullState
  rw [h]
  exact if_pos hlt

theorem updateFullState_blocked (table : List FullStateRow)
    (entry existing : FullStateRow)
    (h : findFullState table entry.ref = some existing)
    (hge : ¬ existing.id < entry.id) :
    updateFullState table entry = .error () := by
  unfold updateFullState
  rw [h]
  exact if_neg hge

/-- Claim C6: `fullJournalStates.id` is non-decreasing: every write either
inserts a fresh row, bumps the stored id strictly upwards, or — when the
incoming id is lower than or equal to the stored one — is rejected by the
`existing.id < new.id` guard, leaving the stored row untouched. -/
theorem updateFullState_monotonic (table : List FullStateRow)
    (entry : FullStateRow) :
    (∀ r i, storedFullStateId table r = some i →
      ∃ j, storedFullStateId (updateFullStateTable table entry) r = some j ∧
        i ≤ j) ∧
    (∀ existing, findFullState table entry.ref = some existing →
      entry.id ≤ existing.id →
      updateFullState table entry = .error () ∧
      updateFullStateTable table entry = table) := by
  constructor
  · intro r i hi
    unfold updateFullStateTable
    cases hfind : findFullState table entry.ref with
    | none =>
      rw [updateFullState_insert table entry hfind]
      refine ⟨i, ?_, le_refl i⟩
      unfold storedFullStateId at hi ⊢
      unfold findFullState at hi ⊢
      rw [List.find?_append]
      cases hfr : table.find? (fun row => row.ref == r) with
      | none => rw [hfr] at hi; cases hi
      | some x => rw [hfr] at hi; simp [hfr, ← hi]
    | some existing =>
      by_cases hlt : existing.id < entry.id
      · rw [updateFullState_bump table entry existing hfind hlt]
        unfold storedFullStateId findFullState at hi ⊢
        rw [List.find?_map]
        have hcomp :
            ((fun row : FullStateRow => row.ref == r) ∘ bumpRow entry) =
              fun row : FullStateRow => row.ref == r := by
          funext row
          by_cases h : row.ref == entry.ref <;> simp [Function.comp, bumpRow, h]
        rw [hcomp]
        cases hfr : table.find? (fun row => row.ref == r) with
        | none => rw [hfr] at hi; cases hi
        | some x =>
          rw [hfr] at hi
          simp only [Option.map_some'] at hi ⊢
          have hxi : x.id = i := by injection hi
          by_cases hx : x.ref == entry.ref
          · have hxid : x = existing := by
              have hxr := List.find?_some hfr
              have e1 : x.ref = r := eq_of_beq hxr
              have e2 : x.ref = entry.ref := eq_of_beq hx
              have h1 : r = entry.ref := by rw [← e1, e2]
              rw [h1] at hfr
              unfold findFullState at hfind
              rw [hfind] at hfr
              injection hfr with h2
              exact h2.symm
            refine ⟨entry.id, ?_, ?_⟩
            · simp [bumpRow, hx]
            · rw [← hxi, hxid]
              exact le_of_lt hlt
          · refine ⟨i, ?_, le_refl i⟩
            simp [bumpRow, hx, hxi]
      · rw [updateFullState_blocked table entry existing hfind hlt]
        exact ⟨i, hi, le_refl i⟩
  · intro existing hfind hle
    have hguard : ¬ existing.id < entry.id := Nat.not_lt.mpr hle
    refine ⟨updateFullState_blocked table entry existing hfind hguard, ?_⟩
    unfold updateFullStateTable
    rw [updateFullState_blocked table entry existing hfind hguard]

/-- A stored snapshot at id 5 and an out-of-order write at id 4, used to
exercise the guard of `updateFullState`. -/
def sampleFullRow : FullStateRow :=
  { id := 5, timestamp := 50, ownerId := "a", ref := pausedRef,
    parentRef := none, event := none, state := some (.str "five"),
    context := none }

def sampleLateEntry : FullStateRow :=
  { id := 4, timestamp := 40, ownerId := "a", ref := pausedRef,
    parentRef := none, event := none, state := some (.str "four"),
    context := none }

theorem updateFullState_monotonic_witness :
    updateFullState [sampleFullRow] sampleLateEntry = .error () ∧
    updateFullStateTable [sampleFullRow] sampleLateEntry = [sampleFullRow] :=
  (updateFullState_monotonic [sampleFullRow] sampleLateEntry).2
    sampleFullRow (by decide) (by decide)

/-- The two deltas computed by `JournalPersistenceAdapter.record`. -/
structure RecordedDeltas where
  stateDelta : List PatchOp
  contextDelta : List PatchOp

/-- The delta computation of `JournalPersistenceAdapter.record` (the source
comment reads `Diff to travel *back* in time`):
`stateDelta = createPatch(newState, oldState)` and
`contextDelta = createPatch(newContext, oldContext)` — the *new* value is
the patch source and the *old* value the patch target. -/
def recordDeltas (oldState oldContext newState newContext : Json) :
    RecordedDeltas :=
  { stateDelta := createPatch newState oldState
    contextDelta := createPatch newContext oldContext }

/-- Claim C2: for consecutive journal entries of one chart — entry `e₂`
recorded with old values equal to the new values of entry `e₁` — applying
`e₂`'s stored state delta to `e₂`'s (newer) state yields `e₁`'s (older)
state, and likewise for context: `record` generates the patch going from
the new value back to the old value. -/
theorem record_deltas_reverse
    (e1State e1Context e2OldState e2OldContext e2State e2Context : Json)
    (hS : e2OldState = e1State) (hC : e2OldContext = e1Context)
    (h1 : topKeysNodup e2State = true) (h2 : topKeysNodup e1State = true)
    (h3 : topKeysNodup e2Context = true) (h4 : topKeysNodup e1Context = true) :
    applyPatch e2State
        (recordDeltas e2OldState e2OldContext e2State e2Context).stateDelta =
      .ok e1State ∧
    applyPatch e2Context
        (recordDeltas e2OldState e2OldContext e2State e2Context).contextDelta =
      .ok e1Context := by
  subst hS
  subst hC
  exact ⟨applyPatch_createPatch _ _ h1 h2, applyPatch_createPatch _ _ h3 h4⟩

theorem record_deltas_reverse_witness :
    applyPatch (Json.str "at diner")
        (recordDeltas (.str "at park")
          (.obj [("path", .arr [.str "park"])])
          (.str "at diner")
          (.obj [("path", .arr [.str "park", .str "diner"])])).stateDelta =
      .ok (.str "at park") ∧
    applyPatch (Json.obj [("path", .arr [.str "park", .str "diner"])])
        (recordDeltas (.str "at park")
          (.obj [("path", .arr [.str "park"])])
          (.str "at diner")
          (.obj [("path", .arr [.str "park", .str "diner"])])).contextDelta =
      .ok (.obj [("path", .arr [.str "park"])]) :=
  record_deltas_reverse (.str "at park") (.obj [("path", .arr [.str "park"])])
    (.str "at park") (.obj [("path", .arr [.str "park"])])
    (.str "at diner") (.obj [("path", .arr [.str "park", .str "diner"])])
    rfl rfl (by decide) (by decide) (by decide) (by decide)

/-- The in-memory evaluator snapshot of a chart executor: the parts of
`this.state` that `XJogChart.send` reads and writes. -/
structure EvalState where
  value : Json
  context : Json
deriving DecidableEq

/-- The `context` argument of `XJogChart.send`: an updater callback or an
object of fields merged with `Object.assign`. -/
inductive ContextPatch where
  | updater (f : Json → Json)
  | fields (patch : List (String × Json))

/-- `Object.assign({}, base, patch)` for the shapes the executor feeds it:
an object base is merged field-wise; a non-object base contributes no
enumerable properties, leaving the patch fields. -/
def objectAssign (base : Json) (patch : List (String × Json)) : Json :=
  match base with
  | .obj bf =>
    .obj (patch.foldl (fun acc kv => setOrAppendField acc kv.fst kv.snd) bf)
  | _ => .obj patch

/-- The context mutation `send` performs before invoking the evaluator:
`this.state.context = context(deepCopy(this.state.context))` for a callback,
`this.state.context = Object.assign({}, this.state.context, context)` for an
object, nothing when no patch was passed. -/
def applyContextPatch (mem : EvalState) (patch : Option ContextPatch) :
    EvalState :=
  match patch with
  | some (.updater f) => { mem with context := f mem.context }
  | some (.fields o) => { mem with context := objectAssign mem.context o }
  | none => mem

/-- Outcome of the critical section of `XJogChart.send`: the value returned
to the caller, the executor's in-memory state afterwards, and the state blob
of the persisted chart row afterwards. -/
structure SendOutcome where
  returned : Option EvalState
  memState : EvalState
  dbState : EvalState
deriving DecidableEq

/-- The mutation sequence inside the `try`/`catch` of `XJogChart.send`:
apply the context patch to the in-memory state, run the evaluator transition
(`this.state = this.xJogMachine.machine.transition(...)`), run the update
hooks, and only then persist via `updateChart`.  A raised transition is
caught and `send` returns null with the context patch already applied
in-memory and the chart row untouched; a raised hook is caught and `send`
returns null with `this.state` already holding the post-transition state and
the chart row untouched; nothing in the `catch` restores `this.state`. -/
def sendModel (mem dbRow : EvalState) (patch : Option ContextPatch)
    (transition : EvalState → Except Unit EvalState) (hooksOk : Bool) :
    SendOutcome :=
  match transition (applyContextPatch mem patch) with
  | .error _ =>
    { returned := none, memState := applyContextPatch mem patch,
      dbState := dbRow }
  | .ok st =>
    if hooksOk then { returned := some st, memState := st, dbState := st }
    else { returned := none, memState := st, dbState := dbRow }

/-- Claim C7 (amended): when the evaluator transition or an update hook
raises, `send` returns null and the persisted chart row is unchanged — but
the in-memory state is not rolled back: a failed transition leaves the
patched context in place and a failed hook leaves the post-transition
state in place. -/
theorem send_failure_no_partial_persistence
    (mem dbRow : EvalState) (patch : Option ContextPatch)
    (transition : EvalState → Except Unit EvalState) (hooksOk : Bool)
    (hfail : (transition (applyContextPatch mem patch)).isOk = false ∨
      hooksOk = false) :
    (sendModel mem dbRow patch transition hooksOk).returned = none ∧
    (sendModel mem dbRow patch transition hooksOk).dbState = dbRow ∧
    (sendModel mem dbRow patch transition hooksOk).memState =
      (match transition (applyContextPatch mem patch) with
       | .error _ => applyContextPatch mem patch
       | .ok st => st) := by
  unfold sendModel
  cases htr : transition (applyContextPatch mem patch) with
  | error e => exact ⟨rfl, rfl, rfl⟩
  | ok st =>
    rcases hfail with h | h
    · rw [htr] at h
      cases h
    · subst h
      exact ⟨rfl, rfl, rfl⟩

/-- A concrete chart state used to exercise the failure paths of `send`. -/
def idleState : EvalState :=
  { value := .str "idle", context := .obj [("calls", .num 0)] }

theorem send_failure_no_partial_persistence_witness :
    (sendModel idleState idleState
        (some (.updater (fun _ => .obj [("calls", .num 1)])))
        (fun _ => .error ()) true).returned = none ∧
    (sendModel idleState idleState
        (some (.updater (fun _ => .obj [("calls", .num 1)])))
        (fun _ => .error ()) true).dbState = idleState ∧
    (sendModel idleState idleState
        (some (.updater (fun _ => .obj [("calls", .num 1)])))
        (fun _ => .error ()) true).memState =
      (match (fun _ : EvalState => Except.error (ε := Unit) ())
          (applyContextPatch idleState
            (some (.updater (fun _ => .obj [("calls", .num 1)])))) with
       | .error _ => applyContextPatch idleState
            (some (.updater (fun _ => .obj [("calls", .num 1)])))
       | .ok st => st) :=
  send_failure_no_partial_persistence idleState idleState
    (some (.updater (fun _ => .obj [("calls", .num 1)])))
    (fun _ => .error ()) true (Or.inl rfl)

/-- Claim C7 (counterexample to the claim as stated): a send whose context
patch sets `calls` to 1 and whose transition then raises returns null and
leaves the chart row untouched — but the in-memory state does *not* equal
the pre-send state: the patched context survives the failure. -/
theorem send_failure_memState_not_restored :
    (sendModel idleState idleState
        (some (.updater (fun _ => .obj [("calls", .num 1)])))
        (fun _ => .error ()) true).returned = none ∧
    (sendModel idleState idleState
        (some (.updater (fun _ => .obj [("calls", .num 1)])))
        (fun _ => .error ()) true).dbState = idleState ∧
    ¬ ((sendModel idleState idleState
        (some (.updater (fun _ => .obj [("calls", .num 1)])))
        (fun _ => .error ()) true).memState = idleState) := by
  refine ⟨rfl, rfl, ?_⟩
  intro h
  have : Json.obj [("calls", .num 1)] = Json.obj [("calls", .num 0)] :=
    congrArg EvalState.context h
  cases this

/-- One observable step of `XJogChart.send`, in program order. -/
inductive SendStep where
  | acquireMutex
  | runUpdateHooks
  | updateChartRow
  | publishChange
  | executeActions
  | releaseMutex
  | sendEventDirect (target : ChartReference)
  | deferViaScheduler (target : ChartReference)
  | autoForward
deriving DecidableEq

/-- The step sequence of a successful `XJogChart.send`.  The mutex is
released by the `finally`; after it, `if (this.state.done && this.parentRef)`
triggers `await this.xJog.sendEvent(this.parentRef, doneInvoke(this.id,
doneData))` — a direct send (the source carries the comment `TODO should
probably defer this event`); the deferred-event manager is not called on
this path. -/
def sendSteps (isFinal : Bool) (parentRef : Option ChartReference) :
    List SendStep :=
  [ .acquireMutex, .runUpdateHooks, .updateChartRow, .publishChange,
    .executeActions, .releaseMutex ]
  ++ (match parentRef with
      | some p => if isFinal then [.sendEventDirect p] else []
      | none => [])
  ++ [ .autoForward ]

/-- Does a step sequence enqueue anything via the deferred-event manager? -/
def usesDeferredScheduler (l : List SendStep) : Bool :=
  l.any (fun s =>
    match s with
    | .deferViaScheduler _ => true
    | _ => false)

/-- Claim C8: the claim states that on reaching a final state with a parent,
the `doneInvoke` event is enqueued via the deferred-event scheduler and not
delivered by a direct synchronous send.  The embedded step sequence shows
the opposite: the parent is notified by a direct `sendEvent` (placed after
this chart's mutex release), and no deferred-event enqueue occurs. -/
theorem doneInvoke_sent_directly :
    sendSteps true (some pausedRef) =
      [ .acquireMutex, .runUpdateHooks, .updateChartRow, .publishChange,
        .executeActions, .releaseMutex, .sendEventDirect pausedRef,
        .autoForward ] ∧
    usesDeferredScheduler (sendSteps true (some pausedRef)) = false :=
  ⟨rfl, rfl⟩

/-- Run-time state of `XJogStartupManager` during the adopting phase:
the shared database, the grace-period timer (`some d` = armed to fire at
wall-clock `d`), when forcible adoption ran, and when readiness was
signalled. -/
structure AdoptionState where
  db : CoreDb
  graceDeadline : Option Nat
  forcibleFiredAt : Option Nat
  readyAt : Option Nat
deriving DecidableEq

/-- An observable occurrence during the adopting phase: one pass of the
`adoptCharts` loop completing at `time`, or the runtime checking the
grace-period timer at `time`. -/
inductive AdoptionEvent where
  | pass (time : Nat)
  | expiry (time : Nat)
deriving DecidableEq

/-- `XJog.start` enters the adopting phase at time 0: the overthrow has
committed (`db`), and `startAdoptionGracePeriod` arms the timer for
`gracePeriod` from now. -/
def adoptionInit (gracePeriod : Nat) (db : CoreDb) : AdoptionState :=
  { db := db, graceDeadline := some gracePeriod,
    forcibleFiredAt := none, readyAt := none }

/-- One step of the adopting phase, transcribing
`XJogStartupManager.adoptCharts` and `forciblyOverThrowStubbornInstances`.
A pass runs `gentlyAdoptCharts`, then reads `countPausedCharts`: a positive
count re-arms the grace timer to a full `gracePeriod` from this pass (the
source comment reads `Restart the grace period, otherwise it could be spent
on a lengthy adoption process alone`) and loops; a zero count clears the
grace timer and signals readiness.  A timer check at `t` with an armed,
elapsed deadline nulls the timer handle, runs `forciblyAdoptCharts`, and
signals readiness. -/
def adoptionStep (gracePeriod : Nat) (selfId : String) (s : AdoptionState)
    (e : AdoptionEvent) : AdoptionState :=
  match e with
  | .pass t =>
    let db1 := (gentlyAdoptCharts selfId s.db).2
    if 0 < countPausedCharts db1 then
      { s with db := db1, graceDeadline := some (t + gracePeriod) }
    else
      { s with db := db1, graceDeadline := none, readyAt := some t }
  | .expiry t =>
    match s.graceDeadline with
    | some d =>
      if d ≤ t then
        { s with
          db := (forciblyAdoptCharts selfId s.db).2,
          graceDeadline := none,
          forcibleFiredAt := some t,
          readyAt := some t }
      else s
    | none => s

/-- A whole adopting phase: fold the events over the initial state. -/
def adoptionRun (gracePeriod : Nat) (selfId : String) (db : CoreDb)
    (events : List AdoptionEvent) : AdoptionState :=
  events.foldl (adoptionStep gracePeriod selfId) (adoptionInit gracePeriod db)

/-- A database that gentle adoption can never drain: one paused chart with a
registered ongoing activity. -/
def stubbornDb : CoreDb :=
  { instances := [{ instanceId := "old", dying := true }]
    charts := [{ ownerId := "old", ref := pausedRef, paused := true }]
    ongoingActivities := [{ ref := pausedRef, activityId := "act" }] }

/-- Claim C5 (counterexample to the parenthetical as stated): with
`gracePeriod = 75` and passes every 20 time units (the configuration of the
startup-manager unit test), every pass observes the stubborn paused chart
and re-arms the grace timer to a full 75 from that pass.  After the passes
at 0, 20, 40 and 60 the deadline stands at 135, so timer checks at 75 — the
moment `gracePeriod` after the adopting phase began — and at 100 fire
nothing: a pass left `pausedChartCount > 0`, yet forcible adoption has not
happened within `gracePeriod` of the start of the phase. -/
theorem gracePeriod_restart_defers_forcible_adoption :
    (adoptionRun 75 "new" stubbornDb
      [.pass 0, .pass 20, .pass 40, .pass 60,
       .expiry 75, .expiry 100]).forcibleFiredAt = none ∧
    (adoptionRun 75 "new" stubbornDb
      [.pass 0, .pass 20, .pass 40, .pass 60,
       .expiry 75, .expiry 100]).graceDeadline = some 135 ∧
    0 < countPausedCharts (adoptionRun 75 "new" stubbornDb
      [.pass 0, .pass 20, .pass 40, .pass 60,
       .expiry 75, .expiry 100]).db := by
  refine ⟨by decide, by decide, by decide⟩

/-- Claim C5 (amended): each step of the adopting phase satisfies: (a) a
timer check at or after an armed deadline nulls the timer and runs
`forciblyAdoptCharts`, signalling readiness; (b) a pass clears the timer
only when it observes zero paused charts; (c) a pass observing a positive
count re-arms the timer to a full `gracePeriod` after that pass — so
forcible adoption is guaranteed only within `gracePeriod` of the *last*
positive-count pass, not of the start of the adopting phase; (d) a check
before the armed deadline changes nothing. -/
theorem adoption_grace_step_properties (g : Nat) (selfId : String)
    (s : AdoptionState) :
    (∀ t d, s.graceDeadline = some d → d ≤ t →
      adoptionStep g selfId s (.expiry t) =
        { s with
          db := (forciblyAdoptCharts selfId s.db).2,
          graceDeadline := none,
          forcibleFiredAt := some t,
          readyAt := some t }) ∧
    (∀ t, (adoptionStep g selfId s (.pass t)).graceDeadline = none →
      countPausedCharts (gentlyAdoptCharts selfId s.db).2 = 0) ∧
    (∀ t, 0 < countPausedCharts (gentlyAdoptCharts selfId s.db).2 →
      (adoptionStep g selfId s (.pass t)).graceDeadline = some (t + g)) ∧
    (∀ t d, s.graceDeadline = some d → t < d →
      adoptionStep g selfId s (.expiry t) = s) := by
  refine ⟨?_, ?_, ?_, ?_⟩
  · intro t d hd hle
    unfold adoptionStep
    rw [hd]
    exact if_pos hle
  · intro t hnone
    simp only [adoptionStep] at hnone
    by_cases hc : 0 < countPausedCharts (gentlyAdoptCharts selfId s.db).2
    · rw [if_pos hc] at hnone
      simp at hnone
    · exact Nat.eq_zero_of_not_pos hc
  · intro t hc
    simp only [adoptionStep]
    rw [if_pos hc]
  · intro t d hd hlt
    unfold adoptionStep
    rw [hd]
    exact if_neg (Nat.not_le.mpr hlt)

theorem adoption_grace_step_properties_witness :
    adoptionStep 75 "new" (adoptionInit 75 stubbornDb) (.expiry 75) =
      { adoptionInit 75 stubbornDb with
        db := (forciblyAdoptCharts "new" stubbornDb).2,
        graceDeadline := none,
        forcibleFiredAt := some 75,
        readyAt := some 75 } :=
  (adoption_grace_step_properties 75 "new" (adoptionInit 75 stubbornDb)).1
    75 75 rfl (le_refl 75)

def exceptDecEq {ε α : Type} [DecidableEq ε] [DecidableEq α] :
    (a b : Except ε α) → Decidable (a = b)
  | .error e1, .error e2 =>
    match decEq e1 e2 with
    | isTrue h => isTrue (by rw [h])
    | isFalse h => isFalse (fun hh => h (by injection hh))
  | .ok a1, .ok a2 =>
    match decEq a1 a2 with
    | isTrue h => isTrue (by rw [h])
    | isFalse h => isFalse (fun hh => h (by injection hh))
  | .error _, .ok _ => isFalse (by intro h; cases h)
  | .ok _, .error _ => isFalse (by intro h; cases h)

instance {ε α : Type} [DecidableEq ε] [DecidableEq α] :
    DecidableEq (Except ε α) :=
  exceptDecEq

/-- ASCII tab, line feed and carriage return: the characters the WHATWG URL
parser removes from its input before any other processing. -/
def isStrippedChar (c : Char) : Bool :=
  c = Char.ofNat 9 || c = Char.ofNat 10 || c = Char.ofNat 13

/-- Step one of URL parsing: remove every ASCII tab or newline. -/
def stripTabNewline (l : List Char) : List Char :=
  l.filter (fun c => !isStrippedChar c)

/-- Uppercase hexadecimal digit, as the URL serializer emits them. -/
def hexDigitChar (n : Nat) : Char :=
  if n < 10 then Char.ofNat (48 + n) else Char.ofNat (55 + n)

/-- The WHATWG path percent-encode set: C0 controls, space, quote, angle
brackets, backquote, curly braces and delete.  (`?` and `#` never reach the
path encoder: they delimit the query and fragment; the inputs modelled here
exclude them.) -/
def inPathEncodeSet (c : Char) : Bool :=
  c.toNat < 32 || c = ' ' || c = '"' || c = '<' || c = '>' ||
  c = Char.ofNat 96 || c = Char.ofNat 123 || c = Char.ofNat 125 ||
  c.toNat = 127

/-- Percent-encode one character of a URL path.  Characters above ASCII are
UTF-8 percent-encoded by the real parser and percent-decoded back by
`decodeURIComponent`; that net identity is modelled as pass-through. -/
def pctEncodeChar (c : Char) : List Char :=
  if inPathEncodeSet c then
    ['%', hexDigitChar (c.toNat / 16 % 16), hexDigitChar (c.toNat % 16)]
  else [c]

/-- Percent-encode a URL path. -/
def encodePath : List Char → List Char
  | [] => []
  | c :: rest => pctEncodeChar c ++ encodePath rest

/-- The numeric value of a hexadecimal digit, if any. -/
def hexDigitValue (c : Char) : Option Nat :=
  if 48 ≤ c.toNat ∧ c.toNat ≤ 57 then some (c.toNat - 48)
  else if 65 ≤ c.toNat ∧ c.toNat ≤ 70 then some (c.toNat - 55)
  else if 97 ≤ c.toNat ∧ c.toNat ≤ 102 then some (c.toNat - 87)
  else none

/-- `decodeURIComponent`: percent-escapes decode to their byte, anything
else passes through; a malformed escape throws `URIError` (modelled as
`none`). -/
def decodeUriComponent : List Char → Option (List Char)
  | [] => some []
  | c :: rest =>
    if c = '%' then
      match rest with
      | h :: l :: rest2 =>
        match hexDigitValue h, hexDigitValue l with
        | some hv, some lv =>
          (decodeUriComponent rest2).map
            (fun tail => Char.ofNat (16 * hv + lv) :: tail)
        | _, _ => none
      | _ => none
    else (decodeUriComponent rest).map (fun tail => c :: tail)

/-- JavaScript `String.prototype.split('/')`. -/
def splitOnSlash : List Char → List (List Char)
  | [] => [[]]
  | c :: rest =>
    if c = '/' then [] :: splitOnSlash rest
    else
      match splitOnSlash rest with
      | seg :: segs => (c :: seg) :: segs
      | [] => [[c]]

/-- JavaScript `Array.prototype.join('/')`. -/
def joinWithSlash : List (List Char) → List Char
  | [] => []
  | [s] => s
  | s :: rest => s ++ '/' :: joinWithSlash rest

/-- The inner normalization loop of `ChartIdentifier.joinSegments`:
`segment.split('/').filter(Boolean)` for each truthy segment, concatenated. -/
def normalizeSegments : List (List Char) → List (List Char)
  | [] => []
  | s :: rest =>
    (splitOnSlash s).filter (fun t => !t.isEmpty) ++ normalizeSegments rest

/-- `ChartIdentifier.joinSegments`: drop falsy segments (absent or empty),
split each survivor on `/` dropping empty pieces, join with `/`, and keep a
leading slash exactly when the first truthy segment starts with one. -/
def joinSegments (segments : List (Option (List Char))) : List Char :=
  let truthySegments := (segments.filterMap id).filter (fun s => !s.isEmpty)
  if truthySegments.isEmpty then []
  else
    let path := joinWithSlash (normalizeSegments truthySegments)
    match truthySegments.head? with
    | some s0 => if s0.head? = some '/' then '/' :: path else path
    | none => path

/-- The observable parts of a parsed `URL` that `ChartIdentifier` reads:
the scheme and the (percent-encoded) pathname. -/
structure UrlModel where
  scheme : List Char
  pathname : List Char
deriving DecidableEq

/-- A character legal in a URL scheme. -/
def isSchemeChar (c : Char) : Bool :=
  (97 ≤ c.toNat && c.toNat ≤ 122) || (65 ≤ c.toNat && c.toNat ≤ 90) ||
  (48 ≤ c.toNat && c.toNat ≤ 57) || c = '+' || c = '-' || c = '.'

/-- Split the input at the first colon: `some (scheme, rest)`. -/
def splitAtColon : List Char → Option (List Char × List Char)
  | [] => none
  | c :: rest =>
    if c = ':' then some ([], rest)
    else (splitAtColon rest).map (fun p => (c :: p.1, p.2))

/-- Does the part after the colon open a host (`//...`)? -/
def isHostForm : List Char → Bool
  | r0 :: r1 :: _ => r0 = '/' && r1 = '/'
  | _ => false

/-- Modelled from the spec: `new URL(input)` of the platform's WHATWG URL
class, restricted to the fragment `ChartIdentifier` exercises — a
non-special scheme followed by an opaque or path-absolute path.  Tabs and
newlines are removed from the whole input first; the scheme is everything
before the first colon.  Host-form inputs (`//` after the colon) and
query/fragment splitting are outside the modelled fragment: `//` maps to a
parse failure, matching the observable outcome of the identifiers proved
about below (a chart reference whose ids are slash-free never produces a
host form), and inputs are assumed free of `?` and `#`. -/
def parseUrl (input : List Char) : Option UrlModel :=
  let cleaned := stripTabNewline input
  match splitAtColon cleaned with
  | none => none
  | some (scheme, rest) =>
    if scheme.isEmpty then none
    else if !(scheme.all isSchemeChar) then none
    else if isHostForm rest then none
    else some { scheme := scheme, pathname := encodePath rest }

/-- `ChartIdentifier`'s private `pathSegments` getter:
`this.uri.pathname.split('/').filter(Boolean).map(decodeURIComponent)`;
`none` models a `URIError` escaping the getter. -/
def pathSegmentsOf (u : UrlModel) : Option (List (List Char)) :=
  ((splitOnSlash u.pathname).filter (fun s => !s.isEmpty)).mapM
    decodeUriComponent

/-- `ChartIdentifier.getPathSegment`, including the JavaScript semantics of
indexing with `pathSegments.length + index` when `index` is negative (a
negative result reads `undefined`, surfaced as null). -/
def getPathSegment (segs : List (List Char)) (idx : Int) : Option (List Char) :=
  if idx < 0 then
    let j : Int := (segs.length : Int) + idx
    if j < 0 then none else segs.get? j.toNat
  else segs.get? idx.toNat

def xjogSchemeChars : List Char :=
  ['x', 'j', 'o', 'g', '+', 'c', 'h', 'a', 'r', 't']

/-- The URI string the `ChartIdentifier` constructor builds from a plain
`ChartReference` (no host): `xjog+chart:/` followed by the joined
segments. -/
def chartIdUriString (machineId chartId : List Char) : List Char :=
  xjogSchemeChars ++ ':' :: '/' ::
    joinSegments [none, some machineId, some chartId]

/-- The observable result of constructing a `ChartIdentifier` from a URI
string: parse the URL, require the `xjog+chart:` protocol, read the last
two path segments as machine id and chart id, and require both non-empty —
any failure along the way is a constructor throw. -/
def chartIdentifierParse (input : List Char) :
    Except Unit (List Char × List Char) :=
  match parseUrl input with
  | none => .error ()
  | some u =>
    if u.scheme ≠ xjogSchemeChars then .error ()
    else
      match pathSegmentsOf u with
      | none => .error ()
      | some segs =>
        match getPathSegment segs (-2), getPathSegment segs (-1) with
        | some m, some c =>
          if m.isEmpty || c.isEmpty then .error () else .ok (m, c)
        | _, _ => .error ()

/-- `new ChartIdentifier(ref).ref` for a plain reference: serialize to the
URI and read the ids back. -/
def chartIdentifierFromRef (machineId chartId : List Char) :
    Except Unit (List Char × List Char) :=
  chartIdentifierParse (chartIdUriString machineId chartId)

/-- `ChartIdentifier.from`: the constructor wrapped in `try`/`catch`, every
throw surfaced as null. -/
def chartIdentifierFrom (input : List Char) : Option (List Char × List Char) :=
  (chartIdentifierParse input).toOption

theorem stripTabNewline_eq_self (l : List Char)
    (h : ∀ ch ∈ l, isStrippedChar ch = false) :
    stripTabNewline l = l :=
  List.filter_eq_self.mpr (fun c hc => by simp [h c hc])

theorem encodePath_append (l1 l2 : List Char) :
    encodePath (l1 ++ l2) = encodePath l1 ++ encodePath l2 := by
  induction l1 with
  | nil => rfl
  | cons c rest ih => simp [encodePath, ih]

theorem pctEncodeChar_ne_nil (c : Char) : pctEncodeChar c ≠ [] := by
  unfold pctEncodeChar
  by_cases h : inPathEncodeSet c <;> simp [h]

theorem encodePath_ne_nil (l : List Char) (h : l ≠ []) : encodePath l ≠ [] := by
  cases l with
  | nil => exact absurd rfl h
  | cons c rest =>
    simp only [encodePath]
    intro hnil
    exact pctEncodeChar_ne_nil c (List.append_eq_nil.mp hnil).1

theorem hexDigitChar_ne_slash : ∀ n, n < 16 → hexDigitChar n ≠ '/' := by
  decide

theorem mem_pctEncodeChar_ne_slash (c : Char) (hc : c ≠ '/') :
    ∀ ch ∈ pctEncodeChar c, ch ≠ '/' := by
  unfold pctEncodeChar
  by_cases h : inPathEncodeSet c
  · simp only [h, if_true]
    intro ch hch
    rcases List.mem_cons.mp hch with h1 | h2
    · subst h1
      decide
    · rcases List.mem_cons.mp h2 with h3 | h4
      · subst h3
        exact hexDigitChar_ne_slash _ (Nat.mod_lt _ (by omega))
      · have h5 : ch = hexDigitChar (c.toNat % 16) := by simpa using h4
        subst h5
        exact hexDigitChar_ne_slash _ (Nat.mod_lt _ (by omega))
  · simp only [h, Bool.false_eq_true, if_false]
    intro ch hch
    rw [List.mem_singleton.mp hch]
    exact hc

theorem mem_encodePath_ne_slash (l : List Char)
    (h : ∀ ch ∈ l, ch ≠ '/') :
    ∀ ch ∈ encodePath l, ch ≠ '/' := by
  induction l with
  | nil => simp [encodePath]
  | cons c rest ih =>
    simp only [encodePath]
    intro ch hch
    rcases List.mem_append.mp hch with h1 | h2
    · exact mem_pctEncodeChar_ne_slash c (h c (by simp)) ch h1
    · exact ih (fun x hx => h x (by simp [hx])) ch h2

theorem hexDigitValue_hexDigitChar : ∀ n, n < 16 →
    hexDigitValue (hexDigitChar n) = some n := by
  decide

theorem inPathEncodeSet_lt (c : Char) (h : inPathEncodeSet c = true) :
    c.toNat < 128 := by
  simp only [inPathEncodeSet, Bool.or_eq_true, decide_eq_true_eq] at h
  rcases h with ((((((((h | h) | h) | h) | h) | h) | h) | h) | h)
  · omega
  · subst h; decide
  · subst h; decide
  · subst h; decide
  · subst h; decide
  · subst h; decide
  · subst h; decide
  · subst h; decide
  · omega

theorem decodeUriComponent_cons_ne_pct (c : Char) (rest : List Char)
    (hc : c ≠ '%') :
    decodeUriComponent (c :: rest) =
      (decodeUriComponent rest).map (fun tail => c :: tail) := by
  cases rest with
  | nil => simp [decodeUriComponent, hc]
  | cons a tail =>
    cases tail with
    | nil => simp [decodeUriComponent, hc]
    | cons b tail2 => simp [decodeUriComponent, hc]

theorem decodeUriComponent_pct (h l : Char) (rest2 : List Char)
    (hv lv : Nat) (hh : hexDigitValue h = some hv)
    (hl : hexDigitValue l = some lv) :
    decodeUriComponent ('%' :: h :: l :: rest2) =
      (decodeUriComponent rest2).map
        (fun tail => Char.ofNat (16 * hv + lv) :: tail) := by
  simp [decodeUriComponent, hh, hl]

theorem decode_encode (l : List Char) (h : ∀ ch ∈ l, ch ≠ '%') :
    decodeUriComponent (encodePath l) = some l := by
  induction l with
  | nil => rfl
  | cons c rest ih =>
    have hrest : decodeUriComponent (encodePath rest) = some rest :=
      ih (fun x hx => h x (by simp [hx]))
    simp only [encodePath]
    by_cases hc : inPathEncodeSet c
    · simp only [pctEncodeChar, hc, if_true, List.cons_append]
      rw [decodeUriComponent_pct _ _ _ _ _
        (hexDigitValue_hexDigitChar _ (Nat.mod_lt _ (by omega)))
        (hexDigitValue_hexDigitChar _ (Nat.mod_lt _ (by omega)))]
      simp only [List.nil_append]
      rw [hrest]
      have hlt : c.toNat < 128 := inPathEncodeSet_lt c hc
      have harith : 16 * (c.toNat / 16 % 16) + c.toNat % 16 = c.toNat := by
        omega
      simp [harith, Char.ofNat_toNat]
    · have hcp : c ≠ '%' := h c (by simp)
      simp only [pctEncodeChar, hc, Bool.false_eq_true, if_false,
        List.singleton_append]
      rw [decodeUriComponent_cons_ne_pct c _ hcp, hrest]
      simp

theorem splitOnSlash_no_slash (l : List Char) (h : ∀ ch ∈ l, ch ≠ '/') :
    splitOnSlash l = [l] := by
  induction l with
  | nil => rfl
  | cons ch rest ih =>
    have hc : ch ≠ '/' := h ch (by simp)
    have hr := ih (fun x hx => h x (by simp [hx]))
    simp [splitOnSlash, hc, hr]

theorem splitOnSlash_append (A X : List Char) (h : ∀ ch ∈ A, ch ≠ '/') :
    splitOnSlash (A ++ '/' :: X) = A :: splitOnSlash X := by
  induction A with
  | nil => simp [splitOnSlash]
  | cons ch A' ih =>
    have hc : ch ≠ '/' := h ch (by simp)
    have hr := ih (fun x hx => h x (by simp [hx]))
    simp [splitOnSlash, hc, hr]

theorem splitAtColon_past_scheme (S R : List Char) (h : ∀ ch ∈ S, ch ≠ ':') :
    splitAtColon (S ++ ':' :: R) = some (S, R) := by
  induction S with
  | nil => simp [splitAtColon]
  | cons ch S' ih =>
    have hc : ch ≠ ':' := h ch (by simp)
    have hr := ih (fun x hx => h x (by simp [hx]))
    simp [splitAtColon, hc, hr]

theorem isEmpty_false_of_ne_nil (l : List Char) (h : l ≠ []) :
    l.isEmpty = false := by
  cases l with
  | nil => exact absurd rfl h
  | cons _ _ => rfl

theorem joinSegments_pair (m c : List Char) (hm : m ≠ []) (hc : c ≠ [])
    (hms : ∀ ch ∈ m, ch ≠ '/') (hcs : ∀ ch ∈ c, ch ≠ '/') :
    joinSegments [none, some m, some c] = m ++ '/' :: c := by
  have hmE : m.isEmpty = false := isEmpty_false_of_ne_nil m hm
  have hcE : c.isEmpty = false := isEmpty_false_of_ne_nil c hc
  have htruthy :
      (([none, some m, some c].filterMap id).filter (fun s => !s.isEmpty)) =
        [m, c] := by
    simp [List.filterMap, hmE, hcE]
  have hnorm : normalizeSegments [m, c] = [m, c] := by
    simp [normalizeSegments, splitOnSlash_no_slash m hms,
      splitOnSlash_no_slash c hcs, hmE, hcE]
  have hhead : ¬ (m.head? = some '/') := by
    cases m with
    | nil => exact absurd rfl hm
    | cons mh mt =>
      simp only [List.head?_cons, Option.some.injEq]
      exact hms mh (by simp)
  simp only [joinSegments, htruthy, hnorm]
  rw [if_neg (by simp : ¬ ([m, c] : List (List Char)).isEmpty = true)]
  simp only [List.head?_cons]
  rw [if_neg hhead]
  rfl

/-- The character set of claim C10: ids containing none of `/`, `%`, `?`,
`#`. -/
def refIdChar (ch : Char) : Bool :=
  !(ch = '/' || ch = '%' || ch = '?' || ch = '#')

theorem refIdChar_facts (ch : Char) (h : refIdChar ch = true) :
    ch ≠ '/' ∧ ch ≠ '%' := by
  simp only [refIdChar, Bool.or_eq_true, decide_eq_true_eq,
    Bool.not_eq_true'] at h
  simp only [Bool.or_eq_false_iff, decide_eq_false_iff_not] at h
  exact ⟨h.1.1.1, h.1.1.2⟩

theorem stripTabNewline_chartUri (m c : List Char)
    (hm2 : ∀ ch ∈ m, isStrippedChar ch = false)
    (hc2 : ∀ ch ∈ c, isStrippedChar ch = false) :
    stripTabNewline (xjogSchemeChars ++ ':' :: '/' :: (m ++ '/' :: c)) =
      xjogSchemeChars ++ ':' :: '/' :: (m ++ '/' :: c) := by
  apply stripTabNewline_eq_self
  intro ch hch
  rcases List.mem_append.mp hch with h1 | h2
  · fin_cases h1 <;> decide
  · rcases List.mem_cons.mp h2 with h3 | h4
    · subst h3; decide
    · rcases List.mem_cons.mp h4 with h5 | h6
      · subst h5; decide
      · rcases List.mem_append.mp h6 with h7 | h8
        · exact hm2 ch h7
        · rcases List.mem_cons.mp h8 with h9 | h10
          · subst h9; decide
          · exact hc2 ch h10

theorem parseUrl_chartUri (m c : List Char) (hm : m ≠ [])
    (hmslash : ∀ ch ∈ m, ch ≠ '/')
    (hm2 : ∀ ch ∈ m, isStrippedChar ch = false)
    (hc2 : ∀ ch ∈ c, isStrippedChar ch = false) :
    parseUrl (xjogSchemeChars ++ ':' :: '/' :: (m ++ '/' :: c)) =
      some { scheme := xjogSchemeChars,
             pathname := encodePath ('/' :: (m ++ '/' :: c)) } := by
  obtain ⟨mh, mt, rfl⟩ : ∃ mh mt, m = mh :: mt := by
    cases m with
    | nil => exact absurd rfl hm
    | cons a b => exact ⟨a, b, rfl⟩
  have hmh : mh ≠ '/' := hmslash mh (by simp)
  have hhost : isHostForm ('/' :: mh :: (mt ++ '/' :: c)) = false := by
    simp [isHostForm, hmh]
  have hne : xjogSchemeChars.isEmpty = false := rfl
  have hall : xjogSchemeChars.all isSchemeChar = true := by decide
  unfold parseUrl
  rw [stripTabNewline_chartUri _ _ hm2 hc2]
  simp only [splitAtColon_past_scheme xjogSchemeChars
    ('/' :: (mh :: mt ++ '/' :: c)) (by decide)]
  simp [hne, hall, hhost]

theorem pathSegmentsOf_chartUri (m c : List Char) (hm : m ≠ []) (hc : c ≠ [])
    (hmslash : ∀ ch ∈ m, ch ≠ '/') (hcslash : ∀ ch ∈ c, ch ≠ '/')
    (hmp : ∀ ch ∈ m, ch ≠ '%') (hcp : ∀ ch ∈ c, ch ≠ '%') :
    pathSegmentsOf { scheme := xjogSchemeChars,
                     pathname := encodePath ('/' :: (m ++ '/' :: c)) } =
      some [m, c] := by
  have hslash : pctEncodeChar '/' = ['/'] := by decide
  have hsplitpath : encodePath ('/' :: (m ++ '/' :: c)) =
      '/' :: (encodePath m ++ '/' :: encodePath c) := by
    show pctEncodeChar '/' ++ encodePath (m ++ '/' :: c) = _
    rw [hslash, encodePath_append]
    show '/' :: (encodePath m ++ (pctEncodeChar '/' ++ encodePath c)) = _
    rw [hslash]
    rfl
  have hsp : splitOnSlash ('/' :: (encodePath m ++ '/' :: encodePath c)) =
      [[], encodePath m, encodePath c] := by
    have h1 : splitOnSlash ('/' :: (encodePath m ++ '/' :: encodePath c)) =
        [] :: splitOnSlash (encodePath m ++ '/' :: encodePath c) := by
      simp [splitOnSlash]
    rw [h1, splitOnSlash_append _ _ (mem_encodePath_ne_slash m hmslash),
      splitOnSlash_no_slash _ (mem_encodePath_ne_slash c hcslash)]
  have hemE : (encodePath m).isEmpty = false :=
    isEmpty_false_of_ne_nil _ (encodePath_ne_nil m hm)
  have hecE : (encodePath c).isEmpty = false :=
    isEmpty_false_of_ne_nil _ (encodePath_ne_nil c hc)
  have hfilter : ([[], encodePath m, encodePath c] : List (List Char)).filter
      (fun s => !s.isEmpty) = [encodePath m, encodePath c] := by
    simp [List.filter, hemE, hecE]
  unfold pathSegmentsOf
  rw [hsplitpath, hsp, hfilter]
  simp [List.mapM.loop, decode_encode m hmp, decode_encode c hcp]

/-- Claim C10 (amended): for every `ChartReference` whose `machineId` and
`chartId` are non-empty and contain none of `/`, `%`, `?`, `#` *and no
ASCII tab, line feed or carriage return* (which the URL parser strips from
its input), `new ChartIdentifier(ref).ref` round-trips to the same ids; and
`ChartIdentifier.from` never throws, returning null whenever the
constructor fails. -/
theorem chartIdentifier_roundtrip (m c : List Char)
    (hm : m ≠ []) (hc : c ≠ [])
    (hm1 : ∀ ch ∈ m, refIdChar ch = true)
    (hm2 : ∀ ch ∈ m, isStrippedChar ch = false)
    (hc1 : ∀ ch ∈ c, refIdChar ch = true)
    (hc2 : ∀ ch ∈ c, isStrippedChar ch = false) :
    chartIdentifierFromRef m c = .ok (m, c) ∧
    (∀ input, (chartIdentifierParse input).isOk = false →
      chartIdentifierFrom input = none) := by
  constructor
  · have hmslash : ∀ ch ∈ m, ch ≠ '/' :=
      fun ch h => (refIdChar_facts ch (hm1 ch h)).1
    have hcslash : ∀ ch ∈ c, ch ≠ '/' :=
      fun ch h => (refIdChar_facts ch (hc1 ch h)).1
    have hmp : ∀ ch ∈ m, ch ≠ '%' :=
      fun ch h => (refIdChar_facts ch (hm1 ch h)).2
    have hcp : ∀ ch ∈ c, ch ≠ '%' :=
      fun ch h => (refIdChar_facts ch (hc1 ch h)).2
    have hseg2 : getPathSegment [m, c] (-2) = some m := rfl
    have hseg1 : getPathSegment [m, c] (-1) = some c := rfl
    unfold chartIdentifierFromRef chartIdUriString
    rw [joinSegments_pair m c hm hc hmslash hcslash]
    simp only [chartIdentifierParse,
      parseUrl_chartUri m c hm hmslash hm2 hc2,
      pathSegmentsOf_chartUri m c hm hc hmslash hcslash hmp hcp,
      hseg2, hseg1]
    simp [isEmpty_false_of_ne_nil m hm, isEmpty_false_of_ne_nil c hc]
  · intro input h
    unfold chartIdentifierFrom
    cases hp : chartIdentifierParse input with
    | ok v => rw [hp] at h; cases h
    | error e => simp [Except.toOption]

theorem chartIdentifier_roundtrip_witness :
    chartIdentifierFromRef "this machine".toList "that chart".toList =
      .ok ("this machine".toList, "that chart".toList) ∧
    (∀ input, (chartIdentifierParse input).isOk = false →
      chartIdentifierFrom input = none) :=
  chartIdentifier_roundtrip "this machine".toList "that chart".toList
    (by decide) (by decide) (by decide) (by decide) (by decide) (by decide)

/-- Claim C10 (counterexample to the claim as stated): the machine id
`a<TAB>b` is non-empty and contains none of `/`, `%`, `?`, `#`, yet the URL
parser strips the tab, so the round-trip yields machine id `ab` instead of
the original.  `xjog+chart:` URI serialization is therefore not injective
on the character set the claim names. -/
theorem chartIdentifier_roundtrip_fails_on_tab :
    chartIdentifierFromRef ['a', Char.ofNat 9, 'b'] ['c'] =
      .ok (['a', 'b'], ['c']) ∧
    (['a', 'b'] : List Char) ≠ ['a', Char.ofNat 9, 'b'] ∧
    ('a' :: Char.ofNat 9 :: ['b'] : List Char) ≠ [] ∧
    (∀ ch ∈ ('a' :: Char.ofNat 9 :: ['b'] : List Char), refIdChar ch = true) ∧
    (∀ ch ∈ (['c'] : List Char), refIdChar ch = true) := by
  refine ⟨by decide, by decide, by decide, by decide, by decide⟩

end XJogSpec
